import Mathlib

/-!
Verification of the Little Lemon menu store (database.js) and the Home-screen
menu sync and query controller (screens/Home.js).

The SQLite-backed store is shallowly embedded: a database state is `none`
(table absent) or `some rows` (the `menuitems` table content in insertion
order).  SQL behaviour is modelled at that level:

* `LOWER` is SQLite's ASCII-only lowercasing (`asciiLower`).
* `LIKE` is SQLite's pattern matcher (`likeMatch`): `%` matches any run,
  `_` any single character, and ordinary characters compare ASCII
  case-insensitively (the default `LIKE` behaviour; the source additionally
  wraps both sides in `LOWER`, which we reproduce faithfully).
* `ORDER BY` on TEXT columns is the BINARY collation, i.e. lexicographic
  codepoint order, which is what Lean's `String` linear order provides.
  SQLite leaves the relative order of equal keys unspecified; the model
  realises one permitted outcome via a stable insertion sort, and every
  theorem about ordering only asserts sortedness plus multiset equality.
* JavaScript's `String.prototype.trim` is `jsTrim`, and the object-literal
  grouping in Home.js is modelled including JavaScript's own-property key
  order (array-index keys first, ascending; then string keys in insertion
  order).

Failure injection for the `saveMenuItems` transaction is explicit: a fault
oracle says which statement of the transaction throws, and
`withTransactionAsync` rolls the state back on a throw.
-/

deriving instance DecidableEq for Except

namespace LittleLemon

/-! ### ASCII lowercasing (SQLite LOWER) -/

/-- SQLite's `LOWER` on a single character: only ASCII `A`–`Z` are mapped. -/
def asciiLower (c : Char) : Char :=
  if 65 ≤ c.toNat ∧ c.toNat ≤ 90 then Char.ofNat (c.toNat + 32) else c

/-- SQLite's `LOWER` on a list of characters. -/
def asciiLowerL (l : List Char) : List Char := l.map asciiLower

/-- SQLite's `LOWER` on a string. -/
def asciiLowerStr (s : String) : String := ⟨asciiLowerL s.data⟩

/-! ### JavaScript string trimming -/

/-- The ECMAScript whitespace set recognised by `String.prototype.trim`. -/
def isJsWs (c : Char) : Bool :=
  ([9, 10, 11, 12, 13, 32, 160, 0x1680, 0x2028, 0x2029, 0x202F, 0x205F,
    0x3000, 0xFEFF] : List Nat).contains c.toNat
  || (0x2000 ≤ c.toNat && c.toNat ≤ 0x200A)

/-- Drop the longest run of characters satisfying `p` from the end of the
list. -/
def dropTrail (p : Char → Bool) : List Char → List Char
  | [] => []
  | c :: cs =>
    match dropTrail p cs with
    | [] => if p c then [] else [c]
    | d :: ds => c :: d :: ds

/-- JavaScript's `String.prototype.trim` on a character list. -/
def jsTrimL (l : List Char) : List Char :=
  dropTrail isJsWs (List.dropWhile isJsWs l)

/-- JavaScript's `String.prototype.trim`. -/
def jsTrim (s : String) : String := ⟨jsTrimL s.data⟩

/-! ### SQLite LIKE pattern matching -/

/-- Character comparison used by SQLite's default `LIKE`: ASCII
case-insensitive equality. -/
def ciEq (c d : Char) : Bool := asciiLower c == asciiLower d

/-- Try a continuation on a list and on each of its proper tails.  This is
the search `%` performs. -/
def likeTails (m : List Char → Bool) : List Char → Bool
  | [] => m []
  | c :: s => m (c :: s) || likeTails m s

/-- SQLite `LIKE`: `%` matches any (possibly empty) run, `_` any single
character, every other pattern character one subject character, ASCII
case-insensitively. -/
def likeMatch : List Char → List Char → Bool
  | [], s => s.isEmpty
  | c :: p, s =>
    if c = '%' then likeTails (fun t => likeMatch p t) s
    else
      match s with
      | [] => false
      | d :: s2 => (if c = '_' then true else ciEq c d) && likeMatch p s2

/-- Boolean case-sensitive list equality test used to state what a
wildcard-free pattern means. -/
def isPrefOf : List Char → List Char → Bool
  | [], _ => true
  | _ :: _, [] => false
  | a :: t, b :: s => a == b && isPrefOf t s

/-- Containment of `t` in `s` as a contiguous sublist. -/
def isSubOf (t : List Char) : List Char → Bool
  | [] => isPrefOf t []
  | c :: s => isPrefOf t (c :: s) || isSubOf t s

/-- The pattern has no `LIKE` metacharacter. -/
def noWild (l : List Char) : Bool := l.all (fun c => !(c == '%' || c == '_'))

/-- Case-insensitive substring containment, the spec's notion of what a
non-blank search query should mean. -/
def substrCI (t s : String) : Bool := isSubOf (asciiLowerL t.data) (asciiLowerL s.data)

/-! ### Data model -/

/-- A row of the `menuitems` table.  The `REAL` price column is modelled by
exact rationals; no claim depends on float rounding. -/
structure MenuItem where
  id : Int
  name : String
  price : Rat
  description : String
  image : String
  category : String
deriving DecidableEq

/-- The `ORDER BY category, name` comparison: lexicographic on the pair,
with SQLite's BINARY collation on TEXT, i.e. codepoint order (the
lexicographic order on the character lists). -/
def catNameLe (a b : MenuItem) : Prop :=
  a.category.data < b.category.data ∨
    (a.category = b.category ∧ a.name.data ≤ b.name.data)

instance : DecidableRel catNameLe := fun a b => by
  unfold catNameLe
  infer_instance


instance : IsTotal MenuItem catNameLe := ⟨by
  intro a b
  rcases lt_trichotomy a.category.data b.category.data with h | h | h
  · exact Or.inl (Or.inl h)
  · rcases le_total a.name.data b.name.data with hn | hn
    · exact Or.inl (Or.inr ⟨String.ext h, hn⟩)
    · exact Or.inr (Or.inr ⟨(String.ext h).symm, hn⟩)
  · exact Or.inr (Or.inl h)⟩

instance : IsTrans MenuItem catNameLe := ⟨by
  intro a b c hab hbc
  rcases hab with h1 | ⟨h1, h1n⟩
  · rcases hbc with h2 | ⟨h2, h2n⟩
    · exact Or.inl (lt_trans h1 h2)
    · exact Or.inl (lt_of_lt_of_le h1 (le_of_eq (congrArg String.data h2)))
  · rcases hbc with h2 | ⟨h2, h2n⟩
    · exact Or.inl (lt_of_le_of_lt (le_of_eq (congrArg String.data h1)) h2)
    · exact Or.inr ⟨h1.trans h2, le_trans h1n h2n⟩⟩

/-- The `ORDER BY name` comparison. -/
def nameLe (a b : MenuItem) : Prop := a.name.data ≤ b.name.data

instance : DecidableRel nameLe := fun a b => by
  unfold nameLe
  infer_instance

instance : IsTotal MenuItem nameLe := ⟨fun a b => le_total a.name.data b.name.data⟩

instance : IsTrans MenuItem nameLe := ⟨fun _ _ _ hab hbc => le_trans hab hbc⟩

/-! ### The menu store (database.js) -/

/-- State of the store: `none` while the `menuitems` table does not exist,
otherwise its rows in insertion order. -/
abbrev DbState := Option (List MenuItem)

/-- Embeds `createTable`: `CREATE TABLE IF NOT EXISTS menuitems (...)`. -/
def createTable : DbState → Except String Unit × DbState
  | none => (.ok (), some [])
  | some rows => (.ok (), some rows)

/-- Embeds `getMenuItems`: `SELECT * FROM menuitems` (no ORDER BY, rows come
back in stored order). -/
def getMenuItems : DbState → Except String (List MenuItem)
  | none => .error "Failed to get menu items: no such table"
  | some rows => .ok rows

/-- Fault oracle for a fault-free run. -/
def noFaults : Nat → Bool := fun _ => false

/-- The INSERT loop of `saveMenuItems`, run inside the transaction.
Statement `k` of the transaction (`k ≥ 1`, statement `0` being the DELETE)
may be made to throw by the fault oracle.  The item's own `id` is bound
into the INSERT, so rows are stored verbatim. -/
def runInserts (faults : Nat → Bool) :
    List MenuItem → Nat → List MenuItem → Except String (List MenuItem)
  | [], _, acc => .ok acc
  | it :: rest, k, acc =>
    if faults k then .error "INSERT failed"
    else runInserts faults rest (k + 1) (acc ++ [it])

/-- Embeds `saveMenuItems`: inside `withTransactionAsync`, DELETE all rows
then INSERT the new items in order; a throw anywhere inside the transaction
rolls the table back to its prior rows, and the catch block rethrows a
`Failed to save menu items` error. -/
def saveMenuItems (s : DbState) (menuItems : List MenuItem) (faults : Nat → Bool) :
    Except String Unit × DbState :=
  match s with
  | none => (.error "Failed to save menu items: no such table", none)
  | some rows =>
    match (if faults 0 then Except.error "DELETE failed"
           else runInserts faults menuItems 1 []) with
    | .ok newRows => (.ok (), some newRows)
    | .error e => (.error ("Failed to save menu items: " ++ e), some rows)

/-- Embeds `filterByCategory`: `category = 'all'` runs
`SELECT * ... ORDER BY category, name`; anything else runs
`SELECT * ... WHERE LOWER(category) = LOWER(?) ORDER BY name`. -/
def filterByCategory (s : DbState) (category : String) : Except String (List MenuItem) :=
  match s with
  | none => .error "Failed to filter by category: no such table"
  | some rows =>
    if category = "all" then .ok (List.insertionSort catNameLe rows)
    else .ok (List.insertionSort nameLe (rows.filter
      (fun it => asciiLowerStr it.category == asciiLowerStr category)))

/-- Embeds `searchMenuItems`: a falsy or whitespace-only query runs the
plain `ORDER BY category, name` select; otherwise the pattern
`'%' + query.trim() + '%'` is matched with
`LOWER(name) LIKE LOWER(?) OR LOWER(description) LIKE LOWER(?)`,
`ORDER BY category, name`. -/
def searchMenuItems (s : DbState) (query : String) : Except String (List MenuItem) :=
  match s with
  | none => .error "Failed to search menu items: no such table"
  | some rows =>
    if query = "" ∨ jsTrim query = "" then .ok (List.insertionSort catNameLe rows)
    else
      .ok (List.insertionSort catNameLe (rows.filter (fun it =>
        likeMatch (asciiLowerL ('%' :: (jsTrim query).data ++ ['%']))
          (asciiLowerL it.name.data) ||
        likeMatch (asciiLowerL ('%' :: (jsTrim query).data ++ ['%']))
          (asciiLowerL it.description.data))))

/-! ### Grouping into sections (Home.js) -/

/-- A SectionList section: `{ title: category, data: items }`. -/
structure Section where
  title : String
  data : List MenuItem
deriving DecidableEq

/-- The string-keyed own properties of `Object.prototype` (plus the
`__proto__` accessor): a property read `grouped[k]` on a plain object
literal whose own keys miss `k` still finds these through the prototype
chain, and the found value (a function, or `Object.prototype` itself for
`__proto__`) is truthy and has no `push` method. -/
def protoProps : List String :=
  ["constructor", "hasOwnProperty", "isPrototypeOf", "propertyIsEnumerable",
   "toLocaleString", "toString", "valueOf", "__proto__",
   "__defineGetter__", "__defineSetter__", "__lookupGetter__", "__lookupSetter__"]

/-- One step of the grouping loop body:
`if (!grouped[item.category]) grouped[item.category] = [];`
`grouped[item.category].push(item)`.  The object is modelled as an
association list of own keys in property-insertion order.  The truthiness
test reads through the prototype chain: an own key shadows the prototype
and its array is pushed to; an absent own key whose name is an
`Object.prototype` property finds the inherited truthy value, so the
initialisation is skipped and the `push` call throws a TypeError; any
other absent key reads `undefined` (falsy), so the key is initialised and
pushed to. -/
def pushItem (gs : List (String × List MenuItem)) (it : MenuItem) :
    Except String (List (String × List MenuItem)) :=
  if gs.any (fun p => p.1 == it.category) then
    .ok (gs.map (fun p => if p.1 == it.category then (p.1, p.2 ++ [it]) else p))
  else if protoProps.contains it.category then
    .error "grouped[item.category].push is not a function"
  else .ok (gs ++ [(it.category, [it])])

/-- The `menuItems.forEach(...)` grouping loop; a TypeError thrown by an
iteration aborts the loop. -/
def groupItems (gs : List (String × List MenuItem)) :
    List MenuItem → Except String (List (String × List MenuItem))
  | [] => .ok gs
  | it :: rest =>
    match pushItem gs it with
    | .ok gs2 => groupItems gs2 rest
    | .error e => .error e

def groupedPairs (menuItems : List MenuItem) :
    Except String (List (String × List MenuItem)) :=
  groupItems [] menuItems

def isDigitCh (c : Char) : Bool := 48 ≤ c.toNat && c.toNat ≤ 57

def natOfDigits (l : List Char) : Nat :=
  l.foldl (fun acc c => acc * 10 + (c.toNat - 48)) 0

/-- JavaScript array-index property keys: the canonical decimal form of an
integer `0 ≤ n < 2^32 - 1`.  `Object.keys` lists these before all other
keys, in ascending numeric order. -/
def arrayIndexVal (s : String) : Option Nat :=
  if !s.data.isEmpty && s.data.all isDigitCh
      && (s.data == ['0'] || s.data.head? != some '0')
      && decide (natOfDigits s.data < 4294967295) then
    some (natOfDigits s.data)
  else none

def arrIdxLe (a b : String) : Prop :=
  (arrayIndexVal a).getD 0 ≤ (arrayIndexVal b).getD 0

instance : DecidableRel arrIdxLe := fun a b => by
  unfold arrIdxLe
  infer_instance

/-- Property enumeration order of a JavaScript object (`Object.keys`):
array-index keys in ascending numeric order first, then the remaining
string keys in insertion order. -/
def objectKeys (ks : List String) : List String :=
  List.insertionSort arrIdxLe (ks.filter (fun k => (arrayIndexVal k).isSome)) ++
    ks.filter (fun k => (arrayIndexVal k).isNone)

/-- Lookup `grouped[category]`. -/
def getGroup (gs : List (String × List MenuItem)) (k : String) : List MenuItem :=
  match gs.find? (fun p => p.1 == k) with
  | some p => p.2
  | none => []

/-- The `Object.keys(grouped).map(category => ({title: category, data:
grouped[category]}))` step, propagating a TypeError thrown by the loop. -/
def groupIntoSections (menuItems : List MenuItem) : Except String (List Section) :=
  match groupedPairs menuItems with
  | .error e => .error e
  | .ok gs => .ok ((objectKeys (gs.map Prod.fst)).map (fun k => ⟨k, getGroup gs k⟩))

/-- The full section-building step of Home.js, with its emptiness guard:
`if (menuItems && menuItems.length > 0) {...} else setSections([])`.  An
error is one thrown inside the `try` and caught by the enclosing
`catch`. -/
def toSectionData (menuItems : List MenuItem) : Except String (List Section) :=
  if 0 < menuItems.length then groupIntoSections menuItems else .ok []

/-- The categories of a result sequence in first-seen order. -/
def firstSeenKeys (menuItems : List MenuItem) : List String :=
  menuItems.foldl (fun ks it => if it.category ∈ ks then ks else ks ++ [it.category]) []

/-- Modelled from the spec's words — sections created in first-seen order,
each holding its items in the result sequence's order — for comparison with
the code's `groupIntoSections`. -/
def groupFirstSeen (menuItems : List MenuItem) : List Section :=
  (firstSeenKeys menuItems).map
    (fun k => ⟨k, menuItems.filter (fun it => it.category == k)⟩)

/-! ### The menu sync and query controller (Home.js) -/

/-- Shape of the fetched JSON as the source tests it: `menu` is `none` when
`apiData.menu` is absent or falsy. -/
structure ApiData where
  menu : Option (List MenuItem)

/-- Outcome of `fetchMenuFromAPI()`: a parsed JSON document (`none` for a
null document), or a thrown network/parse error. -/
inductive FetchOutcome where
  | success (apiData : Option ApiData)
  | failure (msg : String)

/-- The component state `initializeApp` leaves behind, plus a ghost flag
recording whether the remote source was called. -/
structure InitResult where
  db : DbState
  sections : List Section
  error : Option String
  isInitialized : Bool
  loading : Bool
  fetchCalled : Bool
deriving DecidableEq

/-- Embeds `loadMenuByCategory(category, existingMenuItems)`: any non-null
`existingMenuItems` array (even an empty one — arrays are truthy) is used
directly; otherwise the store is queried.  An error is one caught by the
function's own `catch`, which sets the error state and leaves the sections
state untouched. -/
def loadMenuByCategory (category : String) (existing : Option (List MenuItem))
    (db : DbState) : Except String (List Section) :=
  match existing with
  | some items => toSectionData items
  | none =>
    match filterByCategory db category with
    | .ok items => toSectionData items
    | .error e => .error e

/-- Embeds the tail of `initializeApp`:
`await loadMenuByCategory('all', menuItems); setIsInitialized(true)`.
The call always takes the `existingMenuItems` branch (`menuItems` is an
array here), and a grouping TypeError is caught inside
`loadMenuByCategory` itself, setting the error state and leaving the
sections state at its initial `[]` — `initializeApp` then still marks the
app initialized. -/
def finishInit (db : DbState) (fetchCalled : Bool) (menuItems : List MenuItem) :
    InitResult :=
  match toSectionData menuItems with
  | .ok secs => ⟨db, secs, none, true, false, fetchCalled⟩
  | .error e => ⟨db, [], some e, true, false, fetchCalled⟩

/-- Embeds `initializeApp` for a run in which storage itself does not fault
(the remote fetch outcome is the varying input): create the table, read the
store, fetch and save only if the store is empty, then build the initial
sections from the in-hand `menuItems` array via `finishInit`. -/
def initializeApp (db0 : DbState) (fetch : FetchOutcome) : InitResult :=
  let db1 := (createTable db0).2
  match getMenuItems db1 with
  | .error e => ⟨db1, [], some e, false, false, false⟩
  | .ok rows =>
    if rows.length = 0 then
      match fetch with
      | .failure msg => ⟨db1, [], some msg, false, false, true⟩
      | .success apiData =>
        match apiData with
        | some a =>
          match a.menu with
          | some m => finishInit (saveMenuItems db1 m noFaults).2 true m
          | none => finishInit db1 true rows
        | none => finishInit db1 true rows
    else
      finishInit db1 false rows

/-! ### Concrete sample rows used by witnesses and counterexamples -/

def itemHummus : MenuItem := ⟨1, "Hummus", 5, "Chickpea dip", "hummus.jpg", "starters"⟩

def itemGreek : MenuItem := ⟨2, "Greek Salad", 7, "Crisp and fresh", "greek.jpg", "starters"⟩

def itemPasta : MenuItem := ⟨3, "Pasta", 11, "House special", "pasta.jpg", "mains"⟩

def itemCake : MenuItem := ⟨4, "Lemon Cake", 4, "Sweet finish", "cake.jpg", "desserts"⟩

def itemAbc : MenuItem := ⟨5, "abc", 1, "x", "", "mains"⟩

def itemCat2 : MenuItem := ⟨6, "a", 1, "", "", "2"⟩

def itemCat1 : MenuItem := ⟨7, "b", 1, "", "", "1"⟩

def itemToStr : MenuItem := ⟨8, "t", 1, "", "", "toString"⟩

/-! ### Supporting lemmas -/

theorem char_toNat_inj {a b : Char} (h : a.toNat = b.toNat) : a = b :=
  Char.ext (UInt32.toNat.inj h)

theorem toNat_asciiLower (c : Char) :
    (asciiLower c).toNat =
      if 65 ≤ c.toNat ∧ c.toNat ≤ 90 then c.toNat + 32 else c.toNat := by
  unfold asciiLower
  by_cases h : 65 ≤ c.toNat ∧ c.toNat ≤ 90
  · rw [if_pos h, if_pos h]
    obtain ⟨h1, h2⟩ := h
    set n := c.toNat with hn
    interval_cases n <;> decide
  · rw [if_neg h, if_neg h]

theorem asciiLower_of_not_upper {x : Char}
    (hx : ¬(65 ≤ x.toNat ∧ x.toNat ≤ 90)) : asciiLower x = x := by
  unfold asciiLower
  rw [if_neg hx]

theorem asciiLower_idem (c : Char) : asciiLower (asciiLower c) = asciiLower c := by
  apply asciiLower_of_not_upper
  rw [toNat_asciiLower]
  split_ifs with h <;> omega

theorem asciiLowerL_idem (l : List Char) : asciiLowerL (asciiLowerL l) = asciiLowerL l := by
  induction l with
  | nil => rfl
  | cons c cs ih =>
    simp only [asciiLowerL, List.map_cons] at ih ⊢
    rw [asciiLower_idem, ih]

/-- Lowercasing hits a character that is neither ASCII-uppercase nor
ASCII-lowercase (such as a `LIKE` wildcard) only from that character
itself. -/
theorem asciiLower_eq_self_char {c w : Char}
    (hw1 : ¬(65 ≤ w.toNat ∧ w.toNat ≤ 90)) (hw2 : ¬(97 ≤ w.toNat ∧ w.toNat ≤ 122)) :
    asciiLower c = w ↔ c = w := by
  constructor
  · intro h
    have ht := toNat_asciiLower c
    rw [h] at ht
    by_cases hr : 65 ≤ c.toNat ∧ c.toNat ≤ 90
    · rw [if_pos hr] at ht
      exact absurd ⟨by omega, by omega⟩ hw2
    · rw [if_neg hr] at ht
      exact char_toNat_inj ht.symm
  · intro h
    subst h
    exact asciiLower_of_not_upper hw1

theorem dropTrail_idem (p : Char → Bool) (l : List Char) :
    dropTrail p (dropTrail p l) = dropTrail p l := by
  induction l with
  | nil => rfl
  | cons c cs ih =>
    cases h : dropTrail p cs with
    | nil =>
      simp only [dropTrail, h]
      by_cases hc : p c
      · simp [hc, dropTrail]
      · simp [hc, dropTrail]
    | cons d ds =>
      rw [h] at ih
      have hg : dropTrail p (c :: cs) = c :: d :: ds := by simp only [dropTrail, h]
      rw [hg]
      show (match dropTrail p (d :: ds) with
            | [] => if p c then [] else [c]
            | e :: es => c :: e :: es) = c :: d :: ds
      rw [ih]

theorem dropTrail_cons_head (p : Char → Bool) (h : Char) (t : List Char) :
    dropTrail p (h :: t) = [] ∨ ∃ t2, dropTrail p (h :: t) = h :: t2 := by
  cases hd : dropTrail p t with
  | nil =>
    by_cases hc : p h
    · left
      simp [dropTrail, hd, hc]
    · right
      exact ⟨[], by simp [dropTrail, hd, hc]⟩
  | cons d ds =>
    right
    exact ⟨d :: ds, by simp [dropTrail, hd]⟩

theorem dropWhile_head_false {α : Type} {p : α → Bool} :
    ∀ {l : List α} {h : α} {t : List α}, List.dropWhile p l = h :: t → p h = false := by
  intro l
  induction l with
  | nil => intro h t hc; cases hc
  | cons c cs ih =>
    intro h t hc
    by_cases hpc : p c
    · rw [List.dropWhile_cons, if_pos hpc] at hc
      exact ih hc
    · rw [List.dropWhile_cons, if_neg hpc] at hc
      cases hc
      simpa using hpc

theorem dropWhile_cons_of_false {α : Type} {p : α → Bool} {h : α}
    (hf : p h = false) (t : List α) : List.dropWhile p (h :: t) = h :: t := by
  simp [List.dropWhile_cons, hf]

theorem dropWhile_jsTrimL (l : List Char) :
    List.dropWhile isJsWs (jsTrimL l) = jsTrimL l := by
  unfold jsTrimL
  cases hm : List.dropWhile isJsWs l with
  | nil => simp [dropTrail]
  | cons h t =>
    have hf : isJsWs h = false := dropWhile_head_false hm
    rcases dropTrail_cons_head isJsWs h t with h0 | ⟨t2, h2⟩
    · rw [h0]
      rfl
    · rw [h2]
      exact dropWhile_cons_of_false hf t2

theorem jsTrimL_idem (l : List Char) : jsTrimL (jsTrimL l) = jsTrimL l := by
  show dropTrail isJsWs (List.dropWhile isJsWs (jsTrimL l)) = jsTrimL l
  rw [dropWhile_jsTrimL]
  show dropTrail isJsWs (dropTrail isJsWs (List.dropWhile isJsWs l)) =
    dropTrail isJsWs (List.dropWhile isJsWs l)
  exact dropTrail_idem _ _

theorem jsTrim_idem (s : String) : jsTrim (jsTrim s) = jsTrim s :=
  congrArg (fun l => (⟨l⟩ : String)) (jsTrimL_idem s.data)

theorem str_mk_eq_empty_iff (l : List Char) : (⟨l⟩ : String) = "" ↔ l = [] := by
  constructor
  · intro h
    exact congrArg String.data h
  · intro h
    rw [h]

theorem likeMatch_pct (p s : List Char) :
    likeMatch ('%' :: p) s = likeTails (fun t => likeMatch p t) s := by
  simp [likeMatch]

theorem likeMatch_cons_nil {c : Char} (h1 : c ≠ '%') (p : List Char) :
    likeMatch (c :: p) [] = false := by
  simp [likeMatch, h1]

theorem likeMatch_cons_cons {c : Char} (h1 : c ≠ '%') (h2 : c ≠ '_')
    (p : List Char) (d : Char) (s2 : List Char) :
    likeMatch (c :: p) (d :: s2) = (ciEq c d && likeMatch p s2) := by
  simp [likeMatch, h1, h2]

theorem noWild_cons {c : Char} {p : List Char} (h : noWild (c :: p) = true) :
    c ≠ '%' ∧ c ≠ '_' ∧ noWild p = true := by
  simp only [noWild, List.all_cons, Bool.and_eq_true, Bool.not_eq_true',
    Bool.or_eq_false_iff, beq_eq_false_iff_ne] at h
  exact ⟨h.1.1, h.1.2, h.2⟩

theorem ciEq_true_iff (c d : Char) : ciEq c d = true ↔ asciiLower c = asciiLower d := by
  simp [ciEq]

theorem likeTails_nil_pattern : ∀ s, likeTails (fun t => likeMatch [] t) s = true := by
  intro s
  induction s with
  | nil => rfl
  | cons c s ih => simp [likeTails, ih]

/-- A wildcard-free pattern matches exactly the subjects with the same
lowercasing. -/
theorem likeMatch_plain {p : List Char} (h : noWild p = true) :
    ∀ s, likeMatch p s = true ↔ asciiLowerL p = asciiLowerL s := by
  induction p with
  | nil =>
    intro s
    cases s with
    | nil => simp [likeMatch, asciiLowerL]
    | cons d s2 => simp [likeMatch, asciiLowerL]
  | cons c p ih =>
    intro s
    obtain ⟨h1, h2, h3⟩ := noWild_cons h
    cases s with
    | nil => simp [likeMatch_cons_nil h1, asciiLowerL]
    | cons d s2 =>
      rw [likeMatch_cons_cons h1 h2, Bool.and_eq_true, ciEq_true_iff, ih h3 s2]
      simp [asciiLowerL]

/-- A wildcard-free pattern followed by `%` matches exactly the subjects
whose lowercasing starts with the pattern's lowercasing. -/
theorem likeMatch_pref {p : List Char} (h : noWild p = true) :
    ∀ s, likeMatch (p ++ ['%']) s = true ↔ isPrefOf (asciiLowerL p) (asciiLowerL s) = true := by
  induction p with
  | nil =>
    intro s
    simp only [List.nil_append]
    rw [likeMatch_pct]
    simp [likeTails_nil_pattern s, isPrefOf]
  | cons c p ih =>
    intro s
    obtain ⟨h1, h2, h3⟩ := noWild_cons h
    cases s with
    | nil =>
      rw [List.cons_append, likeMatch_cons_nil h1]
      simp [isPrefOf, asciiLowerL]
    | cons d s2 =>
      rw [List.cons_append, likeMatch_cons_cons h1 h2, Bool.and_eq_true, ciEq_true_iff,
        ih h3 s2]
      simp [isPrefOf, asciiLowerL]

/-- A wildcard-free pattern wrapped in `%…%` matches exactly the subjects
whose lowercasing contains the pattern's lowercasing. -/
theorem likeMatch_sub {p : List Char} (h : noWild p = true) :
    ∀ s, likeMatch ('%' :: (p ++ ['%'])) s = true ↔
      isSubOf (asciiLowerL p) (asciiLowerL s) = true := by
  intro s
  induction s with
  | nil =>
    rw [likeMatch_pct]
    rw [show likeTails (fun t => likeMatch (p ++ ['%']) t) [] = likeMatch (p ++ ['%']) []
      from rfl]
    rw [likeMatch_pref h []]
    simp [isSubOf, asciiLowerL]
  | cons d s2 ih =>
    rw [likeMatch_pct]
    rw [show likeTails (fun t => likeMatch (p ++ ['%']) t) (d :: s2) =
      (likeMatch (p ++ ['%']) (d :: s2) || likeTails (fun t => likeMatch (p ++ ['%']) t) s2)
      from rfl]
    rw [show likeTails (fun t => likeMatch (p ++ ['%']) t) s2 =
      likeMatch ('%' :: (p ++ ['%'])) s2 from (likeMatch_pct _ _).symm]
    rw [Bool.or_eq_true, likeMatch_pref h (d :: s2), ih]
    simp [isSubOf, asciiLowerL]

theorem noWild_lower {t : List Char} (h : noWild t = true) :
    noWild (asciiLowerL t) = true := by
  simp only [noWild, asciiLowerL, List.all_map, List.all_eq_true, Function.comp] at h ⊢
  intro c hc
  have hcc := h c hc
  simp only [Bool.not_eq_true', Bool.or_eq_false_iff, beq_eq_false_iff_ne] at hcc ⊢
  refine ⟨fun he => hcc.1 ?_, fun he => hcc.2 ?_⟩
  · exact (asciiLower_eq_self_char (by decide) (by decide)).mp he
  · exact (asciiLower_eq_self_char (by decide) (by decide)).mp he

theorem asciiLowerL_pattern (l : List Char) :
    asciiLowerL ('%' :: l ++ ['%']) = '%' :: asciiLowerL l ++ ['%'] := by
  simp [asciiLowerL, show asciiLower '%' = '%' from by decide]

/-- The source's `LOWER(x) LIKE LOWER('%q%')` test is, for wildcard-free `q`,
exactly case-insensitive substring containment. -/
theorem likeMatch_search_iff {t s : List Char} (h : noWild t = true) :
    likeMatch (asciiLowerL ('%' :: t ++ ['%'])) (asciiLowerL s) = true ↔
      isSubOf (asciiLowerL t) (asciiLowerL s) = true := by
  rw [asciiLowerL_pattern]
  have h2 := likeMatch_sub (noWild_lower h) (asciiLowerL s)
  rw [asciiLowerL_idem, asciiLowerL_idem] at h2
  exact h2


theorem bool_eq_of_iff {a b : Bool} (h : a = true ↔ b = true) : a = b := by
  cases a <;> cases b <;> simp_all

theorem runInserts_ok (faults : Nat → Bool) :
    ∀ (items : List MenuItem) (k : Nat) (acc : List MenuItem),
      (∀ i, k ≤ i → i < k + items.length → faults i = false) →
      runInserts faults items k acc = .ok (acc ++ items) := by
  intro items
  induction items with
  | nil =>
    intro k acc _
    simp [runInserts]
  | cons it rest ih =>
    intro k acc hf
    have hk : faults k = false := hf k le_rfl (by simp)
    rw [runInserts, if_neg (by rw [hk]; exact Bool.false_ne_true)]
    rw [ih (k + 1) (acc ++ [it]) (fun i h1 h2 => hf i (by omega) (by simp at h2 ⊢; omega))]
    simp

/-! ### The claims -/

/-- C1: `saveMenuItems(A)` atomically clears all rows and inserts the items
of `A` in order, preserving each supplied `id` (rows are stored verbatim);
with no fault `getMenuItems()` afterwards returns exactly the items of `A`;
if any statement of the transaction throws, the call reports an error and
the store is left exactly as it was before the call. -/
theorem C1_saveMenuItems_atomic (rows items : List MenuItem) (faults : Nat → Bool) :
    ((∀ k, k ≤ items.length → faults k = false) →
      saveMenuItems (some rows) items faults = (.ok (), some items) ∧
      getMenuItems (saveMenuItems (some rows) items faults).2 = .ok items) ∧
    (∀ e st, saveMenuItems (some rows) items faults = (.error e, st) → st = some rows) := by
  constructor
  · intro hf
    have h0 : faults 0 = false := hf 0 (Nat.zero_le _)
    have hr : runInserts faults items 1 [] = .ok ([] ++ items) :=
      runInserts_ok faults items 1 [] (fun i h1 h2 => hf i (by omega))
    rw [List.nil_append] at hr
    constructor
    · simp [saveMenuItems, h0, hr]
    · simp [saveMenuItems, h0, hr, getMenuItems]
  · intro e st hes
    unfold saveMenuItems at hes
    rcases hcase : (if faults 0 then Except.error "DELETE failed"
        else runInserts faults items 1 []) with e0 | n
    · rw [hcase] at hes
      simp at hes
      exact hes.2.symm
    · rw [hcase] at hes
      simp at hes

/-- C1 witness: a fault-free save replaces one row by another and a save
whose second statement throws rolls back to the pre-call row. -/
theorem C1_witness :
    (saveMenuItems (some [itemGreek]) [itemHummus] noFaults = (.ok (), some [itemHummus]) ∧
      getMenuItems (saveMenuItems (some [itemGreek]) [itemHummus] noFaults).2 =
        .ok [itemHummus]) ∧
    (saveMenuItems (some [itemGreek]) [itemHummus, itemPasta] (fun k => k == 1)).2 =
      some [itemGreek] :=
  ⟨(C1_saveMenuItems_atomic [itemGreek] [itemHummus] noFaults).1 (fun _ _ => rfl),
   (C1_saveMenuItems_atomic [itemGreek] [itemHummus, itemPasta] (fun k => k == 1)).2
     "Failed to save menu items: INSERT failed" _ (by decide)⟩

/-- C3: contrary to the claim (and the spec's stated intent), a payload
without a `menu` array on an empty store is silently accepted — no write is
performed, but no error is surfaced either: the app marks itself
initialized with no error message and renders an empty menu.  The same
happens for a null payload. -/
theorem C3_missing_menu_silently_accepted :
    initializeApp (some []) (.success (some ⟨none⟩)) =
      ⟨some [], [], none, true, false, true⟩ ∧
    initializeApp (some []) (.success none) =
      ⟨some [], [], none, true, false, true⟩ := by
  decide

/-- C5: a query that trims to the empty string (so blank or
whitespace-only, including "" and "   ") behaves exactly like
`filterByCategory("all")`. -/
theorem C5_blank_search_eq_filter_all (rows : List MenuItem) (q : String)
    (h : jsTrim q = "") :
    searchMenuItems (some rows) q = filterByCategory (some rows) "all" := by
  simp [searchMenuItems, filterByCategory, h]

/-- C5 witness at the whitespace-only query. -/
theorem C5_witness :
    jsTrim "   " = "" ∧
    searchMenuItems (some [itemGreek, itemPasta]) "   " =
      filterByCategory (some [itemGreek, itemPasta]) "all" :=
  ⟨by decide, C5_blank_search_eq_filter_all [itemGreek, itemPasta] "   " (by decide)⟩

/-- C8: `createTable` (the `ensureSchema` operation) is idempotent: on any
store state neither of two consecutive calls errors, an absent table is
created empty, and existing rows are never destroyed or altered by either
call. -/
theorem C8_createTable_idem (rows : List MenuItem) :
    createTable (some rows) = (.ok (), some rows) ∧
    createTable none = (.ok (), some []) ∧
    ∀ s : DbState, createTable ((createTable s).2) = (.ok (), (createTable s).2) := by
  refine ⟨rfl, rfl, ?_⟩
  intro s
  cases s <;> rfl

/-- C9: leading and trailing whitespace in the query never affects the
result: `searchMenuItems(q)` equals `searchMenuItems(trim(q))` on every
store state. -/
theorem C9_search_trim_invariant (s : DbState) (q : String) :
    searchMenuItems s q = searchMenuItems s (jsTrim q) := by
  cases s with
  | none => rfl
  | some rows =>
    simp only [searchMenuItems]
    by_cases h : jsTrim q = ""
    · rw [if_pos (Or.inr h), if_pos (Or.inl h)]
    · have h2 : ¬(q = "" ∨ jsTrim q = "") := by
        rintro (rfl | hq)
        · exact h rfl
        · exact h hq
      have h3 : ¬(jsTrim q = "" ∨ jsTrim (jsTrim q) = "") := by
        rintro (hq | hq)
        · exact h hq
        · rw [jsTrim_idem] at hq
          exact h hq
      rw [if_neg h2, if_neg h3, jsTrim_idem]

/-- C2 fails as stated: the query text is interpreted as a LIKE pattern,
not as literal characters.  With one stored row named "abc" the non-blank
query "%" returns the row although "%" is not a case-insensitive substring
of either its name or its description. -/
theorem C2_counterexample :
    jsTrim "%" ≠ "" ∧
    searchMenuItems (some [itemAbc]) "%" = .ok [itemAbc] ∧
    substrCI "%" itemAbc.name = false ∧
    substrCI "%" itemAbc.description = false := by
  decide

/-- C2 amended: for every stored set of items and every query whose trimmed
text is non-blank and contains no LIKE metacharacter (`%` or `_`), the
search returns exactly the rows where the trimmed query is a
case-insensitive substring of the name or of the description, ordered by
`(category, name)` ascending — no tokenization, no ranking. -/
theorem C2_search_substring (rows : List MenuItem) (q : String)
    (h1 : jsTrim q ≠ "") (h2 : noWild (jsTrim q).data = true) :
    ∃ l, searchMenuItems (some rows) q = .ok l ∧
      l.Perm (rows.filter (fun it =>
        substrCI (jsTrim q) it.name || substrCI (jsTrim q) it.description)) ∧
      l.Sorted catNameLe := by
  have hcond : ¬(q = "" ∨ jsTrim q = "") := by
    rintro (rfl | hq)
    · exact h1 rfl
    · exact h1 hq
  have hfeq : (fun it : MenuItem =>
      likeMatch (asciiLowerL ('%' :: (jsTrim q).data ++ ['%'])) (asciiLowerL it.name.data) ||
      likeMatch (asciiLowerL ('%' :: (jsTrim q).data ++ ['%'])) (asciiLowerL it.description.data))
      = (fun it : MenuItem =>
        substrCI (jsTrim q) it.name || substrCI (jsTrim q) it.description) := by
    funext it
    congr 1
    · exact bool_eq_of_iff (likeMatch_search_iff (s := it.name.data) h2)
    · exact bool_eq_of_iff (likeMatch_search_iff (s := it.description.data) h2)
  refine ⟨List.insertionSort catNameLe (rows.filter (fun it =>
      likeMatch (asciiLowerL ('%' :: (jsTrim q).data ++ ['%'])) (asciiLowerL it.name.data) ||
      likeMatch (asciiLowerL ('%' :: (jsTrim q).data ++ ['%'])) (asciiLowerL it.description.data))),
    ?_, ?_, List.sorted_insertionSort _ _⟩
  · simp only [searchMenuItems]
    rw [if_neg hcond]
  · refine (List.perm_insertionSort _ _).trans ?_
    rw [hfeq]

/-- C2 witness: the amended statement at a concrete store and the query
" Lemon ". -/
theorem C2_witness :
    ∃ l, searchMenuItems (some [itemGreek, itemCake]) " Lemon " = .ok l ∧
      l.Perm ([itemGreek, itemCake].filter (fun it =>
        substrCI (jsTrim " Lemon ") it.name || substrCI (jsTrim " Lemon ") it.description)) ∧
      l.Sorted catNameLe :=
  C2_search_substring [itemGreek, itemCake] " Lemon " (by decide) (by decide)

/-- C4: `filterByCategory("all")` returns every row ordered by
`(category, name)`; any other value returns exactly the rows whose category
matches case-insensitively, ordered by name; a category matching no row
yields the empty sequence, not an error. -/
theorem C4_filterByCategory_correct (rows : List MenuItem) (c : String) (h : c ≠ "all") :
    (∃ l, filterByCategory (some rows) c = .ok l ∧
      l.Perm (rows.filter (fun it => asciiLowerStr it.category == asciiLowerStr c)) ∧
      l.Sorted nameLe) ∧
    (∃ l, filterByCategory (some rows) "all" = .ok l ∧ l.Perm rows ∧ l.Sorted catNameLe) ∧
    ((∀ it ∈ rows, asciiLowerStr it.category ≠ asciiLowerStr c) →
      filterByCategory (some rows) c = .ok []) := by
  refine ⟨⟨_, ?_, List.perm_insertionSort _ _, List.sorted_insertionSort _ _⟩,
          ⟨_, ?_, List.perm_insertionSort _ _, List.sorted_insertionSort _ _⟩, ?_⟩
  · simp only [filterByCategory]
    rw [if_neg h]
  · simp only [filterByCategory]
    rw [if_pos trivial]
  · intro hnone
    have hfil : rows.filter (fun it => asciiLowerStr it.category == asciiLowerStr c) = [] := by
      rw [List.filter_eq_nil_iff]
      intro it hit
      simp only [beq_iff_eq]
      exact hnone it hit
    simp only [filterByCategory]
    rw [if_neg h, hfil]
    rfl

/-- C4 witness: the case-insensitive branch at category "MAINS". -/
theorem C4_witness :
    ∃ l, filterByCategory (some [itemGreek, itemPasta]) "MAINS" = .ok l ∧
      l.Perm ([itemGreek, itemPasta].filter (fun it =>
        asciiLowerStr it.category == asciiLowerStr "MAINS")) ∧
      l.Sorted nameLe :=
  (C4_filterByCategory_correct [itemGreek, itemPasta] "MAINS" (by decide)).1

theorem finishInit_fetchCalled (db : DbState) (fc : Bool) (menuItems : List MenuItem) :
    (finishInit db fc menuItems).fetchCalled = fc := by
  unfold finishInit
  cases toSectionData menuItems <;> rfl

/-- C6: whenever the store is non-empty at activation, initialization never
calls the remote source — the ghost `fetchCalled` flag stays false, the
view is finished from the stored rows, and the result is the same for
every fetch outcome. -/
theorem C6_bootstrap_skipped (rows : List MenuItem) (fetch fetch2 : FetchOutcome)
    (h : rows ≠ []) :
    (initializeApp (some rows) fetch).fetchCalled = false ∧
    initializeApp (some rows) fetch = finishInit (some rows) false rows ∧
    initializeApp (some rows) fetch = initializeApp (some rows) fetch2 := by
  have hlen : ¬(rows.length = 0) := fun hl => h (List.length_eq_zero.mp hl)
  have hmain : initializeApp (some rows) fetch = finishInit (some rows) false rows := by
    simp only [initializeApp, createTable, getMenuItems]
    rw [if_neg hlen]
  have hmain2 : initializeApp (some rows) fetch2 = finishInit (some rows) false rows := by
    simp only [initializeApp, createTable, getMenuItems]
    rw [if_neg hlen]
  refine ⟨?_, hmain, ?_⟩
  · rw [hmain]
    exact finishInit_fetchCalled _ _ _
  · rw [hmain, hmain2]

/-- C6 witness: a failing remote source is never consulted when a row is
already stored, and the outcome equals that under any other fetch
outcome. -/
theorem C6_witness :
    (initializeApp (some [itemGreek]) (.failure "network down")).fetchCalled = false ∧
    initializeApp (some [itemGreek]) (.failure "network down") =
      finishInit (some [itemGreek]) false [itemGreek] ∧
    initializeApp (some [itemGreek]) (.failure "network down") =
      initializeApp (some [itemGreek]) (.success none) :=
  C6_bootstrap_skipped [itemGreek] (.failure "network down") (.success none) (by decide)

/-- C10: on a first-run bootstrap whose fetch succeeds with a `menu` array,
the store is written with the payload and the initial "all" view is
finished directly from the payload array in payload order — the store is
not re-read — so whenever grouping the payload succeeds the sections follow
payload order with no error, and that order is observably different from
the `(category, name)` ordering `filterByCategory("all")` produces on a
subsequent query. -/
theorem C10_bootstrap_uses_payload_order :
    (∀ m : List MenuItem, initializeApp (some []) (.success (some ⟨some m⟩)) =
      finishInit (some m) true m) ∧
    (∀ (m : List MenuItem) (secs : List Section), toSectionData m = .ok secs →
      initializeApp (some []) (.success (some ⟨some m⟩)) =
        ⟨some m, secs, none, true, false, true⟩) ∧
    filterByCategory (some [itemPasta, itemCake]) "all" = .ok [itemCake, itemPasta] ∧
    toSectionData [itemPasta, itemCake] ≠ toSectionData [itemCake, itemPasta] := by
  have hgen : ∀ m : List MenuItem, initializeApp (some []) (.success (some ⟨some m⟩)) =
      finishInit (some m) true m := by
    intro m
    have hr : runInserts noFaults m 1 [] = .ok ([] ++ m) :=
      runInserts_ok noFaults m 1 [] (fun i _ _ => rfl)
    rw [List.nil_append] at hr
    simp [initializeApp, createTable, getMenuItems, saveMenuItems, noFaults, hr]
  refine ⟨hgen, ?_, by decide, by decide⟩
  intro m secs hsecs
  rw [hgen m]
  unfold finishInit
  rw [hsecs]

/-- C10 witness: a concrete two-item payload is rendered in payload order
(mains before desserts), not in the sorted order of the contrast
conjunct. -/
theorem C10_witness :
    initializeApp (some []) (.success (some ⟨some [itemPasta, itemCake]⟩)) =
      ⟨some [itemPasta, itemCake],
        [⟨"mains", [itemPasta]⟩, ⟨"desserts", [itemCake]⟩], none, true, false, true⟩ :=
  C10_bootstrap_uses_payload_order.2.1 [itemPasta, itemCake]
    [⟨"mains", [itemPasta]⟩, ⟨"desserts", [itemCake]⟩] (by decide)

theorem groupItems_append (l1 l2 : List MenuItem) :
    ∀ gs, groupItems gs (l1 ++ l2) = match groupItems gs l1 with
      | .ok gs2 => groupItems gs2 l2
      | .error e => .error e := by
  induction l1 with
  | nil => intro gs; rfl
  | cons it l1 ih =>
    intro gs
    rw [List.cons_append]
    have hl : groupItems gs (it :: (l1 ++ l2)) = match pushItem gs it with
        | .ok gs2 => groupItems gs2 (l1 ++ l2)
        | .error e => .error e := rfl
    have hr : groupItems gs (it :: l1) = match pushItem gs it with
        | .ok gs2 => groupItems gs2 l1
        | .error e => .error e := rfl
    rw [hl, hr]
    cases pushItem gs it with
    | ok gs2 => exact ih gs2
    | error e => rfl

theorem groupedPairs_append_ok {l : List MenuItem}
    {gs : List (String × List MenuItem)} (hl : groupedPairs l = .ok gs)
    (a : MenuItem) : groupedPairs (l ++ [a]) = pushItem gs a := by
  unfold groupedPairs at hl ⊢
  rw [groupItems_append l [a] [], hl]
  show (match pushItem gs a with
        | .ok gs2 => groupItems gs2 []
        | .error e => .error e) = _
  cases pushItem gs a <;> rfl

theorem firstSeenKeys_append (l : List MenuItem) (a : MenuItem) :
    firstSeenKeys (l ++ [a]) =
      if a.category ∈ firstSeenKeys l then firstSeenKeys l
      else firstSeenKeys l ++ [a.category] := by
  simp [firstSeenKeys, List.foldl_append]

/-- When no category names an `Object.prototype` property the grouping loop
succeeds and builds, in first-seen key order, the association of each
category with the items carrying it in store order; its keys are exactly
the categories present. -/
theorem groupedPairs_spec (items : List MenuItem) :
    (∀ it ∈ items, protoProps.contains it.category = false) →
    groupedPairs items = .ok ((firstSeenKeys items).map
      (fun k => (k, items.filter (fun it => it.category == k)))) ∧
    (∀ it ∈ items, it.category ∈ firstSeenKeys items) ∧
    (∀ k ∈ firstSeenKeys items, ∃ it ∈ items, it.category = k) := by
  induction items using List.reverseRecOn with
  | nil => exact fun _ => ⟨rfl, by simp [firstSeenKeys], by simp [firstSeenKeys]⟩
  | append_singleton l a ih =>
    intro h
    obtain ⟨ihg, ihc1, ihc2⟩ := ih (fun it hit => h it (List.mem_append_left _ hit))
    have hproto : protoProps.contains a.category = false :=
      h a (List.mem_append_right _ (by simp))
    by_cases hmem : a.category ∈ firstSeenKeys l
    · have hkeys : firstSeenKeys (l ++ [a]) = firstSeenKeys l := by
        rw [firstSeenKeys_append, if_pos hmem]
      refine ⟨?_, ?_, ?_⟩
      · rw [groupedPairs_append_ok ihg a, hkeys]
        unfold pushItem
        have hany : ((firstSeenKeys l).map
            (fun k => (k, l.filter (fun it => it.category == k)))).any
            (fun p => p.1 == a.category) = true := by
          rw [List.any_eq_true]
          exact ⟨(a.category, l.filter (fun it => it.category == a.category)),
            List.mem_map.mpr ⟨a.category, hmem, rfl⟩, by simp⟩
        rw [if_pos hany]
        refine congrArg Except.ok ?_
        rw [List.map_map]
        apply List.map_congr_left
        intro k hk
        by_cases hkc : k = a.category
        · subst hkc
          simp [List.filter_append]
        · simp [Function.comp, List.filter_append,
            show (k == a.category) = false by simp [hkc],
            show (a.category == k) = false by simp [Ne.symm hkc]]
      · intro it hit
        rw [hkeys]
        rcases List.mem_append.mp hit with hm | hm
        · exact ihc1 it hm
        · simp only [List.mem_singleton] at hm
          subst hm
          exact hmem
      · intro k hk
        rw [hkeys] at hk
        obtain ⟨it, hit, hc⟩ := ihc2 k hk
        exact ⟨it, List.mem_append_left _ hit, hc⟩
    · have hkeys : firstSeenKeys (l ++ [a]) = firstSeenKeys l ++ [a.category] := by
        rw [firstSeenKeys_append, if_neg hmem]
      refine ⟨?_, ?_, ?_⟩
      · rw [groupedPairs_append_ok ihg a, hkeys]
        unfold pushItem
        have hnot : ¬(((firstSeenKeys l).map
            (fun k => (k, l.filter (fun it => it.category == k)))).any
            (fun p => p.1 == a.category) = true) := by
          intro hc
          rw [List.any_eq_true] at hc
          obtain ⟨p, hp, hbeq⟩ := hc
          obtain ⟨k, hk, rfl⟩ := List.mem_map.mp hp
          simp only [beq_iff_eq] at hbeq
          exact hmem (hbeq ▸ hk)
        rw [if_neg hnot]
        have hpf : ¬(protoProps.contains a.category = true) := by
          rw [hproto]
          exact Bool.false_ne_true
        rw [if_neg hpf]
        refine congrArg Except.ok ?_
        rw [List.map_append]
        congr 1
        · apply List.map_congr_left
          intro k hk
          have hne : (a.category == k) = false := by
            simp only [beq_eq_false_iff_ne]
            intro he
            exact hmem (he ▸ hk)
          simp [List.filter_append, hne]
        · have hfil : l.filter (fun it => it.category == a.category) = [] := by
            rw [List.filter_eq_nil_iff]
            intro it hit
            simp only [beq_iff_eq]
            intro he
            exact hmem (he ▸ ihc1 it hit)
          simp [List.filter_append, hfil]
      · intro it hit
        rw [hkeys]
        rcases List.mem_append.mp hit with hm | hm
        · exact List.mem_append_left _ (ihc1 it hm)
        · simp only [List.mem_singleton] at hm
          subst hm
          exact List.mem_append_right _ (by simp)
      · intro k hk
        rw [hkeys] at hk
        rcases List.mem_append.mp hk with hm | hm
        · obtain ⟨it, hit, hc⟩ := ihc2 k hm
          exact ⟨it, List.mem_append_left _ hit, hc⟩
        · simp only [List.mem_singleton] at hm
          exact ⟨a, List.mem_append_right _ (by simp), hm.symm⟩

theorem objectKeys_of_no_index (ks : List String)
    (h : ∀ k ∈ ks, arrayIndexVal k = none) : objectKeys ks = ks := by
  unfold objectKeys
  have h1 : ks.filter (fun k => (arrayIndexVal k).isSome) = [] := by
    rw [List.filter_eq_nil_iff]
    intro k hk
    simp [h k hk]
  have h2 : ks.filter (fun k => (arrayIndexVal k).isNone) = ks := by
    rw [List.filter_eq_self]
    intro k hk
    simp [h k hk]
  rw [h1, h2]
  rfl

theorem find_in_keyed_map (ks : List String) (g : String → List MenuItem) (k : String)
    (hk : k ∈ ks) :
    List.find? (fun p => p.1 == k) (ks.map (fun k2 => (k2, g k2))) = some (k, g k) := by
  induction ks with
  | nil => cases hk
  | cons k0 ks ih =>
    by_cases h0 : k0 = k
    · subst h0
      rw [List.map_cons, List.find?_cons_of_pos _ (by simp)]
    · rw [List.map_cons, List.find?_cons_of_neg _ (by simp [h0])]
      apply ih
      rcases List.mem_cons.mp hk with hm | hm
      · exact absurd hm.symm h0
      · exact hm

theorem groupIntoSections_eq_firstSeen (items : List MenuItem)
    (h : ∀ it ∈ items, arrayIndexVal it.category = none ∧
      protoProps.contains it.category = false) :
    groupIntoSections items = .ok (groupFirstSeen items) := by
  obtain ⟨hg, hc1, hc2⟩ := groupedPairs_spec items (fun it hit => (h it hit).2)
  have hknone : ∀ k ∈ firstSeenKeys items, arrayIndexVal k = none := by
    intro k hk
    obtain ⟨it, hit, hcat⟩ := hc2 k hk
    rw [← hcat]
    exact (h it hit).1
  unfold groupIntoSections
  rw [hg]
  show Except.ok _ = _
  refine congrArg Except.ok ?_
  have hfst : ((firstSeenKeys items).map
      (fun k => (k, items.filter (fun it => it.category == k)))).map Prod.fst =
      firstSeenKeys items := by
    rw [List.map_map]
    have hcomp : (Prod.fst ∘ fun k : String =>
        (k, items.filter (fun it => it.category == k))) = id := funext (fun _ => rfl)
    rw [hcomp, List.map_id]
  rw [hfst, objectKeys_of_no_index _ hknone]
  unfold groupFirstSeen
  apply List.map_congr_left
  intro k hk
  unfold getGroup
  rw [find_in_keyed_map _ _ k hk]

/-- C7 fails as stated, on two grounds.  `Object.keys` enumerates
integer-like keys first in ascending numeric order, so with the store
returning categories "2" then "1" the code produces sections titled "1",
"2" instead of the first-seen "2", "1".  And a category naming an
`Object.prototype` property is found truthy through the prototype chain,
so its section is never created and the `push` throws a TypeError instead
of producing the claimed section. -/
theorem C7_counterexample :
    toSectionData [itemCat2, itemCat1] = .ok [⟨"1", [itemCat1]⟩, ⟨"2", [itemCat2]⟩] ∧
    groupFirstSeen [itemCat2, itemCat1] = [⟨"2", [itemCat2]⟩, ⟨"1", [itemCat1]⟩] ∧
    toSectionData [itemCat2, itemCat1] ≠ .ok (groupFirstSeen [itemCat2, itemCat1]) ∧
    toSectionData [itemToStr] = .error "grouped[item.category].push is not a function" ∧
    groupFirstSeen [itemToStr] = [⟨"toString", [itemToStr]⟩] := by
  decide

/-- C7 amended: provided no category is a JavaScript array-index string
(the canonical decimal form of an integer below 2^32 − 1) and no category
names an `Object.prototype` property, the grouping step iterates the
result sequence once in order, appends each item to the section titled
with its category, and creates sections in first-seen order, so
within-section order equals the store's order; an empty result sequence
yields zero sections, not an error.  (Array-index categories are instead
listed first in ascending numeric order, and a prototype-property-named
category makes the grouping throw a TypeError.) -/
theorem C7_grouping_first_seen (items : List MenuItem)
    (h : ∀ it ∈ items, arrayIndexVal it.category = none ∧
      protoProps.contains it.category = false) :
    toSectionData items = .ok (groupFirstSeen items) ∧
    toSectionData [] = .ok ([] : List Section) := by
  refine ⟨?_, rfl⟩
  cases items with
  | nil => rfl
  | cons a l =>
    rw [show toSectionData (a :: l) = groupIntoSections (a :: l) from by simp [toSectionData]]
    exact groupIntoSections_eq_firstSeen (a :: l) h

/-- C7 witness: the amended statement on a store with the three observed
categories. -/
theorem C7_witness :
    toSectionData [itemCake, itemGreek, itemPasta] =
        .ok (groupFirstSeen [itemCake, itemGreek, itemPasta]) ∧
      toSectionData [] = .ok ([] : List Section) :=
  C7_grouping_first_seen [itemCake, itemGreek, itemPasta] (by decide)

end LittleLemon
